import Mathlib

/-!
Shallow embedding of `src/index.ts` of the postsass repository:
the dependency-tracking and change-invalidation engine.

The JavaScript module-level object `relationships` (a map from an included
file's path to the ordered, deduplicated list of dependent entry paths) is
modelled as an association list that preserves key insertion order, matching
the insertion-order semantics of string-keyed JS objects. Mutation of the
module-level variable becomes explicit state passing.
-/

namespace Postsass

/-- Output style option of `Params` (src/index.ts line 11). -/
inductive OutputStyle where
  | compressed : OutputStyle
  | expanded : OutputStyle
deriving DecidableEq

/-- The parameters passed in from the command (src/index.ts lines 16-23). -/
structure Params where
  context : String
  dir : List String
  outputStyle : OutputStyle
  sourceMap : Bool
  watch : Bool
  debug : Bool
deriving DecidableEq

/-- The result object flowing out of the compiler pipe and returned by
`compileFile`: `d.from`, `d.to`, and `d.sassResult.stats.includedFiles`
flattened to a field (the only parts of the result the core reads). -/
structure PostcssPipeResult where
  fromPath : String
  toPath : String
  includedFiles : List String
deriving DecidableEq

/-- The module-level `relationships` object (src/index.ts line 40): a map of
which file is a dependency of another file, as an insertion-ordered
association list. -/
abbrev Relationships := List (String × List String)

/-- Key lookup, modelling `f in relationships` plus `relationships[f]`. -/
def lookupRel : Relationships → String → Option (List String)
  | [], _ => none
  | (k, v) :: rest, f => if k = f then some v else lookupRel rest f

/-- In-place overwrite of the value stored at an existing key, modelling
`relationships[f].push(...)` (the key's position is unchanged). -/
def updateRel : Relationships → String → List String → Relationships
  | [], _, _ => []
  | (k, v) :: rest, f, deps => if k = f then (k, deps) :: rest else (k, v) :: updateRel rest f deps

/-- `dependentsOf(filePath)`: the ordered list of entry paths recorded for a
file, empty when the file is unknown. -/
def dependentsOf (rels : Relationships) (f : String) : List String :=
  (lookupRel rels f).getD []

/-- One iteration of the `forEach` body of `relationTracker`
(src/index.ts lines 157-164): if `f` is not a key, append it with the entry
as sole member; otherwise push the entry only when absent
(`indexOf(d.from) === -1`). -/
def recordOne (rels : Relationships) (f : String) (entry : String) : Relationships :=
  match lookupRel rels f with
  | none => rels ++ [(f, [entry])]
  | some deps => if entry ∈ deps then rels else updateRel rels f (deps ++ [entry])

/-- The `forEach` loop of `relationTracker` over `includedFiles`, threading
the mutable `relationships` state. -/
def trackFiles : List String → String → Relationships → Relationships
  | [], _, rels => rels
  | f :: rest, e, rels => trackFiles rest e (recordOne rels f e)

/-- `relationTracker(d)` (src/index.ts lines 156-165): record `d.from` as a
dependent of every file in `d.sassResult.stats.includedFiles`. -/
def relationTracker (d : PostcssPipeResult) (rels : Relationships) : Relationships :=
  trackFiles d.includedFiles d.fromPath rels

theorem lookupRel_append_ne (r : Relationships) (f g : String) (v : List String)
    (h : g ≠ f) : lookupRel (r ++ [(f, v)]) g = lookupRel r g := by
  induction r with
  | nil =>
    show lookupRel [(f, v)] g = none
    simp only [lookupRel]
    exact if_neg (fun hh => h hh.symm)
  | cons kv rest ih =>
    obtain ⟨k, w⟩ := kv
    simp only [List.cons_append, lookupRel]
    split
    · rfl
    · exact ih

theorem lookupRel_append_self (r : Relationships) (f : String) (v : List String)
    (h : lookupRel r f = none) : lookupRel (r ++ [(f, v)]) f = some v := by
  induction r with
  | nil => simp [lookupRel]
  | cons kv rest ih =>
    obtain ⟨k, w⟩ := kv
    simp only [lookupRel] at h
    simp only [List.cons_append, lookupRel]
    split
    · rename_i hk
      rw [if_pos hk] at h
      exact absurd h (by simp)
    · rename_i hk
      rw [if_neg hk] at h
      exact ih h

theorem lookupRel_update_ne (r : Relationships) (f g : String) (v : List String)
    (h : g ≠ f) : lookupRel (updateRel r f v) g = lookupRel r g := by
  induction r with
  | nil => rfl
  | cons kv rest ih =>
    obtain ⟨k, w⟩ := kv
    simp only [updateRel]
    by_cases hk : k = f
    · rw [if_pos hk]
      simp only [lookupRel]
      have hkg : ¬(k = g) := fun hkg => h (hkg ▸ hk)
      rw [if_neg hkg, if_neg hkg]
    · rw [if_neg hk]
      simp only [lookupRel]
      split
      · rfl
      · exact ih

theorem lookupRel_update_self (r : Relationships) (f : String) (v : List String)
    (h : (lookupRel r f).isSome = true) : lookupRel (updateRel r f v) f = some v := by
  induction r with
  | nil => simp [lookupRel] at h
  | cons kv rest ih =>
    obtain ⟨k, w⟩ := kv
    simp only [lookupRel] at h
    simp only [updateRel]
    by_cases hk : k = f
    · rw [if_pos hk]
      simp [lookupRel, hk]
    · rw [if_neg hk]
      simp only [lookupRel, if_neg hk]
      rw [if_neg hk] at h
      exact ih h

theorem recordOne_eq_append (r : Relationships) (f e : String)
    (hl : lookupRel r f = none) : recordOne r f e = r ++ [(f, [e])] := by
  unfold recordOne
  rw [hl]

theorem recordOne_eq_self (r : Relationships) (f e : String) (deps : List String)
    (hl : lookupRel r f = some deps) (he : e ∈ deps) : recordOne r f e = r := by
  unfold recordOne
  rw [hl]
  exact if_pos he

theorem recordOne_eq_update (r : Relationships) (f e : String) (deps : List String)
    (hl : lookupRel r f = some deps) (he : e ∉ deps) :
    recordOne r f e = updateRel r f (deps ++ [e]) := by
  unfold recordOne
  rw [hl]
  exact if_neg he

theorem dependentsOf_recordOne_ne (r : Relationships) (f g e : String) (h : g ≠ f) :
    dependentsOf (recordOne r f e) g = dependentsOf r g := by
  cases hl : lookupRel r f with
  | none =>
    rw [recordOne_eq_append r f e hl]
    unfold dependentsOf
    rw [lookupRel_append_ne r f g [e] h]
  | some deps =>
    by_cases he : e ∈ deps
    · rw [recordOne_eq_self r f e deps hl he]
    · rw [recordOne_eq_update r f e deps hl he]
      unfold dependentsOf
      rw [lookupRel_update_ne r f g (deps ++ [e]) h]

theorem dependentsOf_recordOne_self (r : Relationships) (f e : String) :
    dependentsOf (recordOne r f e) f =
      if e ∈ dependentsOf r f then dependentsOf r f else dependentsOf r f ++ [e] := by
  cases hl : lookupRel r f with
  | none =>
    have hd : dependentsOf r f = [] := by unfold dependentsOf; rw [hl]; rfl
    rw [hd]
    simp only [List.not_mem_nil, if_false, List.nil_append]
    rw [recordOne_eq_append r f e hl]
    unfold dependentsOf
    rw [lookupRel_append_self r f [e] hl]
    rfl
  | some deps =>
    have hd : dependentsOf r f = deps := by unfold dependentsOf; rw [hl]; rfl
    rw [hd]
    by_cases he : e ∈ deps
    · rw [if_pos he, recordOne_eq_self r f e deps hl he, hd]
    · rw [if_neg he, recordOne_eq_update r f e deps hl he]
      unfold dependentsOf
      rw [lookupRel_update_self r f (deps ++ [e]) (by rw [hl]; rfl)]
      rfl

theorem recordOne_eq_of_mem (r : Relationships) (f e : String)
    (h : e ∈ dependentsOf r f) : recordOne r f e = r := by
  cases hl : lookupRel r f with
  | none =>
    unfold dependentsOf at h
    rw [hl] at h
    simp at h
  | some deps =>
    unfold dependentsOf at h
    rw [hl] at h
    exact recordOne_eq_self r f e deps hl h

/-- Effect of one full `relationTracker` pass on a single key: the dependent
list for `g` gains `e` at the end exactly when `g` occurs in the processed
file list and `e` was not yet recorded; otherwise it is untouched. -/
theorem dependentsOf_trackFiles (files : List String) (e : String) (r : Relationships)
    (g : String) :
    dependentsOf (trackFiles files e r) g =
      if g ∈ files ∧ e ∉ dependentsOf r g then dependentsOf r g ++ [e]
      else dependentsOf r g := by
  induction files generalizing r with
  | nil => simp [trackFiles]
  | cons f rest ih =>
    simp only [trackFiles]
    rw [ih]
    by_cases hg : g = f
    · subst hg
      by_cases he : e ∈ dependentsOf r g
      · rw [recordOne_eq_of_mem r g e he]
        simp [he]
      · have h1 : dependentsOf (recordOne r g e) g = dependentsOf r g ++ [e] := by
          rw [dependentsOf_recordOne_self]
          exact if_neg he
        rw [h1]
        have h2 : e ∈ dependentsOf r g ++ [e] := by simp
        simp [he, h2]
    · rw [dependentsOf_recordOne_ne r f g e hg]
      have hmem : g ∈ f :: rest ↔ g ∈ rest := by simp [List.mem_cons, hg]
      simp only [hmem]

theorem trackFiles_eq_of_mem (files : List String) (e : String) (r : Relationships)
    (h : ∀ f ∈ files, e ∈ dependentsOf r f) : trackFiles files e r = r := by
  induction files with
  | nil => rfl
  | cons f rest ih =>
    simp only [trackFiles]
    rw [recordOne_eq_of_mem r f e (h f (by simp))]
    exact ih (fun g hg => h g (by simp [hg]))

theorem mem_dependentsOf_trackFiles (files : List String) (e : String) (r : Relationships)
    (g : String) (h : g ∈ files) : e ∈ dependentsOf (trackFiles files e r) g := by
  rw [dependentsOf_trackFiles]
  by_cases he : e ∈ dependentsOf r g
  · simp [he]
  · simp [h, he]

theorem mem_dependentsOf_trackFiles_of_mem (files : List String) (e : String)
    (r : Relationships) (g x : String) (h : x ∈ dependentsOf r g) :
    x ∈ dependentsOf (trackFiles files e r) g := by
  rw [dependentsOf_trackFiles]
  split
  · simp [h]
  · exact h

/-- The listener attached to "data" events of the compile stream
(src/index.ts lines 130-151): on each successfully compiled unit it logs the
mapping, optionally writes the per-unit debug file, and feeds the result to
`relationTracker` only when `params.watch || params.debug` holds. Only the
graph effect is modelled; logging and the per-unit debug file write do not
touch the graph. -/
def dataListener (params : Params) (d : PostcssPipeResult) (rels : Relationships) :
    Relationships :=
  if params.watch || params.debug then relationTracker d rels else rels

/-- Outcome of one unit in the one-shot compile stream: a "data" event fires
only for a successful compile; a failed compile is recorded into the shared
error collector inside the compiler pipe and emits no data event. -/
inductive UnitResult where
  | success : PostcssPipeResult → UnitResult
  | failure : String → UnitResult
deriving DecidableEq

/-- The one-shot pass over a linearized stream of unit outcomes: data events
reach `dataListener`, failures accumulate in the error collector. -/
def runUnits (params : Params) : List UnitResult → Relationships → List String →
    Relationships × List String
  | [], rels, errs => (rels, errs)
  | UnitResult.success d :: rest, rels, errs =>
      runUnits params rest (dataListener params d rels) errs
  | UnitResult.failure m :: rest, rels, errs => runUnits params rest rels (errs ++ [m])

/-- Spec-side reference fold: the graph obtained by running `relationTracker`
on exactly the successful unit results, in stream order, skipping failures. -/
def trackSuccesses : List UnitResult → Relationships → Relationships
  | [], rels => rels
  | UnitResult.success d :: rest, rels => trackSuccesses rest (relationTracker d rels)
  | UnitResult.failure _ :: rest, rels => trackSuccesses rest rels

/-- The messages of the failed units of a stream, in order. -/
def failureMessages : List UnitResult → List String
  | [] => []
  | UnitResult.success _ :: rest => failureMessages rest
  | UnitResult.failure m :: rest => m :: failureMessages rest

/-- Outcome of one `compileFile` invocation inside the change handler:
the resolved result, or the caught rejection's message. -/
inductive Outcome where
  | ok : PostcssPipeResult → Outcome
  | err : String → Outcome
deriving DecidableEq

/-- The `for (const p of Object.values(relationships[path]))` loop of the
change handler (src/index.ts lines 206-215): sequentially await
`compileFile(p, entry)`, logging success, catching and logging a rejection;
both branches continue with the remaining dependents. The module-level graph
is in scope but never written, so the state is threaded unchanged. -/
def recompileLoop (cf : String → Except String PostcssPipeResult) :
    List String → Relationships → Relationships × List (String × Outcome)
  | [], rels => (rels, [])
  | p :: rest, rels =>
    match cf p with
    | Except.ok w =>
        ((recompileLoop cf rest rels).1, (p, Outcome.ok w) :: (recompileLoop cf rest rels).2)
    | Except.error e =>
        ((recompileLoop cf rest rels).1, (p, Outcome.err e) :: (recompileLoop cf rest rels).2)

/-- `changeHandler(entry)` applied to a changed path (src/index.ts
lines 201-218): when the path is a key of `relationships`, recompile each
recorded dependent in order; otherwise do nothing. `cf` is `compileFile`
with the closed-over `entry` already applied. Returns the graph state after
the event and the ordered list of recompile attempts with their outcomes. -/
def changeHandler (cf : String → Except String PostcssPipeResult)
    (rels : Relationships) (path : String) : Relationships × List (String × Outcome) :=
  match lookupRel rels path with
  | none => (rels, [])
  | some deps => recompileLoop cf deps rels

/-- The attempt record the loop produces for one dependent path. -/
def outcomeOf (cf : String → Except String PostcssPipeResult) (p : String) :
    String × Outcome :=
  match cf p with
  | Except.ok w => (p, Outcome.ok w)
  | Except.error e => (p, Outcome.err e)

theorem recompileLoop_graph (cf : String → Except String PostcssPipeResult)
    (deps : List String) (rels : Relationships) : (recompileLoop cf deps rels).1 = rels := by
  induction deps with
  | nil => rfl
  | cons p rest ih =>
    simp only [recompileLoop]
    cases cf p <;> simpa using ih

theorem recompileLoop_attempts (cf : String → Except String PostcssPipeResult)
    (deps : List String) (rels : Relationships) :
    (recompileLoop cf deps rels).2 = deps.map (outcomeOf cf) := by
  induction deps with
  | nil => rfl
  | cons p rest ih =>
    simp only [recompileLoop, List.map, outcomeOf]
    cases cf p <;> simpa using ih

theorem outcomeOf_fst (cf : String → Except String PostcssPipeResult) (p : String) :
    (outcomeOf cf p).1 = p := by
  unfold outcomeOf
  cases cf p <;> rfl

theorem changeHandler_graph (cf : String → Except String PostcssPipeResult)
    (rels : Relationships) (path : String) : (changeHandler cf rels path).1 = rels := by
  unfold changeHandler
  cases lookupRel rels path
  · rfl
  · exact recompileLoop_graph cf _ rels

theorem changeHandler_attempts (cf : String → Except String PostcssPipeResult)
    (rels : Relationships) (path : String) :
    (changeHandler cf rels path).2.map Prod.fst = dependentsOf rels path := by
  unfold changeHandler
  cases hl : lookupRel rels path with
  | none => simp [dependentsOf, hl]
  | some deps =>
    unfold dependentsOf
    rw [hl]
    rw [recompileLoop_attempts, List.map_map]
    have : (Prod.fst ∘ outcomeOf cf) = fun p => p := by
      funext p
      exact outcomeOf_fst cf p
    rw [this]
    simp

/-- A notification delivered by the watch subsystem for one root
(src/index.ts lines 179-187 register one handler per kind). -/
inductive WatchEvent where
  | ready : WatchEvent
  | unlink : String → WatchEvent
  | change : String → WatchEvent
deriving DecidableEq

/-- Observable effect of handling one watch event: the graph state afterwards,
the recompile attempts made, and the top-level log lines emitted. -/
structure EventResult where
  rels : Relationships
  attempts : List (String × Outcome)
  logs : List String
deriving DecidableEq

/-- Dispatch of one watch event to the handlers registered on the watcher
(src/index.ts lines 179-187): "ready" and "unlink" only log; "change" runs
`changeHandler`. -/
def handleEvent (cf : String → Except String PostcssPipeResult)
    (rels : Relationships) : WatchEvent → EventResult
  | WatchEvent.ready => ⟨rels, [], ["Watching changes"]⟩
  | WatchEvent.unlink p => ⟨rels, [], ["File " ++ p ++ " has been removed"]⟩
  | WatchEvent.change p =>
      ⟨(changeHandler cf rels p).1, (changeHandler cf rels p).2, ["File changed: " ++ p]⟩

/-- Sequential processing of a stream of watch events for one root, threading
the graph state and accumulating attempts and logs in order. -/
def processEvents (cf : String → Except String PostcssPipeResult)
    (rels : Relationships) : List WatchEvent → EventResult
  | [] => ⟨rels, [], []⟩
  | ev :: rest =>
      ⟨(processEvents cf (handleEvent cf rels ev).rels rest).rels,
       (handleEvent cf rels ev).attempts ++
         (processEvents cf (handleEvent cf rels ev).rels rest).attempts,
       (handleEvent cf rels ev).logs ++
         (processEvents cf (handleEvent cf rels ev).rels rest).logs⟩

/-- Observable outcome of the tail of `compile(params)` after the per-entry
promises settle (src/index.ts lines 94-125): the process exit code it sets
(none when it returns without touching `process.exitCode`), whether the
debug snapshot `relationships.json` was written, and whether watch mode was
entered. -/
structure CompileResult where
  exitCode : Option Nat
  snapshotWritten : Bool
  watchEntered : Bool
deriving DecidableEq

/-- The control flow of `compile(params)` after `Promise.all` settles:
a rejection (fatal enumeration/setup failure) sets exit code 1 and returns;
otherwise a non-empty error collector sets exit code 2 and returns; otherwise
the debug snapshot is written when `params.debug`, and when `params.watch`
watch mode runs until graceful shutdown, after which exit code 0 is set. -/
def compileOutcome (params : Params) (fatal : Bool) (errors : List String) :
    CompileResult :=
  if fatal then ⟨some 1, false, false⟩
  else if !errors.isEmpty then ⟨some 2, false, false⟩
  else ⟨if params.watch then some 0 else none, params.debug, params.watch⟩

/-- One-shot parameters: neither watch nor debug. -/
def paramsCold : Params := ⟨"/p", ["styles"], OutputStyle.expanded, false, false, false⟩

/-- Watch-mode parameters without debug. -/
def paramsWatch : Params := ⟨"/p", ["styles"], OutputStyle.expanded, false, true, false⟩

/-- Parameters with both watch and debug enabled. -/
def paramsWatchDebug : Params := ⟨"/p", ["styles"], OutputStyle.compressed, true, true, true⟩

/-- A successful compile of an entry that includes only itself. -/
def dApp : PostcssPipeResult := ⟨"app.scss", "app.css", ["app.scss"]⟩

/-- A cold-build compile of an entry that also includes a partial. -/
def dAppWithBase : PostcssPipeResult := ⟨"app.scss", "app.css", ["app.scss", "base.part"]⟩

/-- The graph produced by the cold build that compiled `dAppWithBase`. -/
def relsCold : Relationships := relationTracker dAppWithBase []

/-- A recompile result whose fresh included-file set gained a new partial. -/
def dFresh : PostcssPipeResult := ⟨"app.scss", "app.css", ["app.scss", "base.part", "new.part"]⟩

/-- A `compileFile` oracle whose recompiles all succeed with `dFresh`. -/
def cfFresh : String → Except String PostcssPipeResult := fun _ => Except.ok dFresh

/-- A `compileFile` oracle whose recompiles all reject. -/
def cfFail : String → Except String PostcssPipeResult := fun _ => Except.error "boom"

/-- A graph in which `app.scss` depends on the partial `base.part`. -/
def relsShared : Relationships := [("base.part", ["app.scss"])]

/-- Entry `a.scss`, whose included-file set contains `shared.part`. -/
def dShareA : PostcssPipeResult := ⟨"a.scss", "a.css", ["a.scss", "shared.part"]⟩

/-- Entry `b.scss`, whose included-file set also contains `shared.part`. -/
def dShareB : PostcssPipeResult := ⟨"b.scss", "b.css", ["b.scss", "shared.part"]⟩

/-- C1 (counterexample): in the state left by a cold build where `app.scss`
depends on `base.part`, a change to `base.part` triggers one successful
recompile whose fresh included-file set contains `new.part`, yet the graph
afterwards has no entry for `new.part`: the change handler never calls
`relationTracker`, so the graph does not gain an entry for every file in the
fresh set. -/
theorem c1_counterexample :
    dependentsOf relsCold "base.part" = ["app.scss"] ∧
    (changeHandler cfFresh relsCold "base.part").2 = [("app.scss", Outcome.ok dFresh)] ∧
    "new.part" ∈ dFresh.includedFiles ∧
    dependentsOf (changeHandler cfFresh relsCold "base.part").1 "new.part" = [] := by
  decide

/-- C1 (amended): a successful recompile performed by the watch-mode change
handler does not invoke `relationTracker`; the handler leaves the dependency
graph unchanged for every compile oracle, graph state, and changed path. -/
theorem c1_amended_theorem (cf : String → Except String PostcssPipeResult)
    (rels : Relationships) (p : String) : (changeHandler cf rels p).1 = rels :=
  changeHandler_graph cf rels p

/-- C2 (counterexample): with `watch = false` and `debug = false`, a
successful unit compile does not reach `relationTracker` during the one-shot
run — the graph stays empty although `relationTracker` applied to the same
result would have recorded an entry. -/
theorem c2_counterexample :
    (runUnits paramsCold [UnitResult.success dApp] [] []).1 = [] ∧
    relationTracker dApp [] = [("app.scss", ["app.scss"])] := by
  decide

/-- C2 (amended): whenever `params.watch || params.debug` holds, the one-shot
pass feeds exactly the successful unit results to `relationTracker`, in
stream order, and failed compiles contribute only their message to the error
collector, never a graph entry. -/
theorem c2_amended_theorem (params : Params) (units : List UnitResult)
    (rels : Relationships) (errs : List String)
    (h : (params.watch || params.debug) = true) :
    (runUnits params units rels errs).1 = trackSuccesses units rels ∧
    (runUnits params units rels errs).2 = errs ++ failureMessages units := by
  induction units generalizing rels errs with
  | nil => simp [runUnits, trackSuccesses, failureMessages]
  | cons u rest ih =>
    cases u with
    | success d =>
      simp only [runUnits, trackSuccesses, failureMessages, dataListener, h, if_true]
      exact ih _ _
    | failure m =>
      simp only [runUnits, trackSuccesses, failureMessages]
      refine ⟨(ih _ _).1, ?_⟩
      rw [(ih _ _).2]
      simp

/-- C2 (amended, witness): concrete instantiation in watch mode with one
success and one failure. -/
theorem c2_amended_witness :
    (runUnits paramsWatch [UnitResult.success dApp, UnitResult.failure "bad"] [] []).1 =
      trackSuccesses [UnitResult.success dApp, UnitResult.failure "bad"] [] ∧
    (runUnits paramsWatch [UnitResult.success dApp, UnitResult.failure "bad"] [] []).2 =
      [] ++ failureMessages [UnitResult.success dApp, UnitResult.failure "bad"] :=
  c2_amended_theorem paramsWatch [UnitResult.success dApp, UnitResult.failure "bad"] [] []
    rfl

/-- C3: the recompile attempts of one change event are exactly
`dependentsOf` of the changed path, in recorded order, and a change to a
path never recorded in any included-file set produces zero recompiles and
zero errors. -/
theorem c3_theorem (cf : String → Except String PostcssPipeResult)
    (rels : Relationships) (p : String) :
    (changeHandler cf rels p).2.map Prod.fst = dependentsOf rels p ∧
    (lookupRel rels p = none → changeHandler cf rels p = (rels, [])) := by
  refine ⟨changeHandler_attempts cf rels p, fun h => ?_⟩
  unfold changeHandler
  rw [h]

/-- C3 (witness): a change to an unknown path on the empty graph makes no
attempt and no error. -/
theorem c3_witness :
    changeHandler cfFail [] "unknown.part" = ([], []) ∧
    (changeHandler cfFail [] "unknown.part").2.map Prod.fst =
      dependentsOf [] "unknown.part" :=
  ⟨(c3_theorem cfFail [] "unknown.part").2 rfl, (c3_theorem cfFail [] "unknown.part").1⟩

/-- C4: `relationTracker` is idempotent — repeating a recording with the same
`(entryPath, includedFiles)` pair changes nothing, in particular every
dependents list keeps its length. -/
theorem c4_theorem (rels : Relationships) (d : PostcssPipeResult) :
    relationTracker d (relationTracker d rels) = relationTracker d rels ∧
    ∀ f : String,
      (dependentsOf (relationTracker d (relationTracker d rels)) f).length =
        (dependentsOf (relationTracker d rels) f).length := by
  have h1 : relationTracker d (relationTracker d rels) = relationTracker d rels := by
    unfold relationTracker
    exact trackFiles_eq_of_mem _ _ _ (fun f hf => mem_dependentsOf_trackFiles _ _ _ _ hf)
  exact ⟨h1, fun f => by rw [h1]⟩

/-- C5: when two distinct entries both report a shared partial in their
included-file sets and that partial was unknown to the graph before, after
both recordings its dependents are exactly the two entries in first-seen
order, whichever entry is recorded first. -/
theorem c5_theorem (rels : Relationships) (dA dB : PostcssPipeResult) (shared : String)
    (hne : dA.fromPath ≠ dB.fromPath)
    (hA : shared ∈ dA.includedFiles) (hB : shared ∈ dB.includedFiles)
    (h0 : lookupRel rels shared = none) :
    dependentsOf (relationTracker dB (relationTracker dA rels)) shared =
      [dA.fromPath, dB.fromPath] := by
  have h00 : dependentsOf rels shared = [] := by unfold dependentsOf; rw [h0]; rfl
  have h1 : dependentsOf (relationTracker dA rels) shared = [dA.fromPath] := by
    unfold relationTracker
    rw [dependentsOf_trackFiles, h00]
    simp [hA]
  show dependentsOf (trackFiles dB.includedFiles dB.fromPath (relationTracker dA rels))
      shared = [dA.fromPath, dB.fromPath]
  rw [dependentsOf_trackFiles, h1]
  have hnotin : dB.fromPath ∉ [dA.fromPath] := by
    simp only [List.mem_singleton]
    exact fun hh => hne (hh.symm)
  simp only [hB, true_and]
  rw [if_pos hnotin]
  rfl

/-- C5 (witness): two concrete entries sharing `shared.part`, recorded in
order `a.scss` then `b.scss` on the empty graph. -/
theorem c5_witness :
    dependentsOf (relationTracker dShareB (relationTracker dShareA [])) "shared.part" =
      ["a.scss", "b.scss"] :=
  c5_theorem [] dShareA dShareB "shared.part" (by decide) (by decide) (by decide) rfl

theorem changeHandler_eq_loop (cf : String → Except String PostcssPipeResult)
    (rels : Relationships) (p : String) (deps : List String)
    (hl : lookupRel rels p = some deps) :
    changeHandler cf rels p = recompileLoop cf deps rels := by
  unfold changeHandler
  rw [hl]

/-- C6: if the recompile of the `i`-th dependent rejects, the failure is
caught and recorded, every dependent (including those after the failing one)
is still attempted in order, and the handler still returns a value — the
rejection never escapes the change handler. -/
theorem c6_theorem (cf : String → Except String PostcssPipeResult)
    (rels : Relationships) (p : String) (i : Nat) (msg : String)
    (h : i < (dependentsOf rels p).length)
    (hfail : cf ((dependentsOf rels p).get ⟨i, h⟩) = Except.error msg) :
    (changeHandler cf rels p).2.map Prod.fst = dependentsOf rels p ∧
    (changeHandler cf rels p).2.get? i =
      some ((dependentsOf rels p).get ⟨i, h⟩, Outcome.err msg) := by
  refine ⟨changeHandler_attempts cf rels p, ?_⟩
  cases hl : lookupRel rels p with
  | none =>
    have hd : dependentsOf rels p = [] := by unfold dependentsOf; rw [hl]; rfl
    rw [hd] at h
    exact absurd h (by simp)
  | some deps =>
    have hd : dependentsOf rels p = deps := by unfold dependentsOf; rw [hl]; rfl
    subst hd
    rw [changeHandler_eq_loop cf rels p _ hl, recompileLoop_attempts, List.get?_map,
      List.get?_eq_get h]
    simp only [Option.map_some']
    unfold outcomeOf
    rw [hfail]

/-- C6 (witness): one tracked dependent whose recompile rejects; the attempt
list still covers it and carries the caught error. -/
theorem c6_witness :
    (changeHandler cfFail relsShared "base.part").2.map Prod.fst =
      dependentsOf relsShared "base.part" ∧
    (changeHandler cfFail relsShared "base.part").2.get? 0 =
      some ("app.scss", Outcome.err "boom") :=
  c6_theorem cfFail relsShared "base.part" 0 "boom" (by decide) rfl

/-- C7: a stream of removal (unlink) notifications — whatever files they
name, tracked dependencies included — triggers no recompile, leaves the
dependency graph untouched, and produces only the removal log lines. -/
theorem c7_theorem (cf : String → Except String PostcssPipeResult)
    (rels : Relationships) (ps : List String) :
    processEvents cf rels (ps.map WatchEvent.unlink) =
      ⟨rels, [], ps.map (fun p => "File " ++ p ++ " has been removed")⟩ := by
  induction ps with
  | nil => rfl
  | cons p rest ih =>
    simp only [List.map_cons, processEvents, handleEvent]
    rw [ih]
    simp

/-- C8: the graph is additive-only — a dependent once present for a key stays
present after any later `relationTracker` recording (also one for the same
entry whose fresh included-file set no longer contains the key), after any
`dataListener` call, and after any change-handler run; no live operation
removes it. -/
theorem c8_theorem (rels : Relationships) (d : PostcssPipeResult) (f E : String)
    (h : E ∈ dependentsOf rels f) :
    E ∈ dependentsOf (relationTracker d rels) f ∧
    (∀ params : Params, E ∈ dependentsOf (dataListener params d rels) f) ∧
    (∀ (cf : String → Except String PostcssPipeResult) (p : String),
      E ∈ dependentsOf (changeHandler cf rels p).1 f) := by
  have h1 : E ∈ dependentsOf (relationTracker d rels) f :=
    mem_dependentsOf_trackFiles_of_mem d.includedFiles d.fromPath rels f E h
  refine ⟨h1, fun params => ?_, fun cf p => ?_⟩
  · unfold dataListener
    split
    · exact h1
    · exact h
  · rw [changeHandler_graph]
    exact h

/-- C8 (witness): `app.scss` stays recorded for `base.part` although the
later recording for `app.scss` no longer includes `base.part`. -/
theorem c8_witness :
    "app.scss" ∈ dependentsOf (relationTracker dApp relsShared) "base.part" :=
  (c8_theorem relsShared dApp "base.part" "app.scss" (by decide)).1

/-- C9: the one-shot/watch tail of `compile` sets exit code 2 exactly when no
fatal error occurred and the error collector is non-empty, sets 1 on a fatal
failure, and sets 0 after a graceful watch-mode shutdown. -/
theorem c9_theorem (params : Params) (fatal : Bool) (errors : List String) :
    ((compileOutcome params fatal errors).exitCode = some 2 ↔
      (fatal = false ∧ errors ≠ [])) ∧
    (fatal = true → (compileOutcome params fatal errors).exitCode = some 1) ∧
    (fatal = false → errors = [] → params.watch = true →
      (compileOutcome params fatal errors).exitCode = some 0) := by
  cases fatal with
  | true => simp [compileOutcome]
  | false =>
    cases errors with
    | nil =>
      cases hw : params.watch with
      | true => simp [compileOutcome, hw]
      | false => simp [compileOutcome, hw]
    | cons e es => simp [compileOutcome]

/-- C9 (witness): the three exit codes on concrete outcomes. -/
theorem c9_witness :
    (compileOutcome paramsWatchDebug false ["bad"]).exitCode = some 2 ∧
    (compileOutcome paramsWatchDebug true []).exitCode = some 1 ∧
    (compileOutcome paramsWatchDebug false []).exitCode = some 0 :=
  ⟨(c9_theorem paramsWatchDebug false ["bad"]).1.mpr ⟨rfl, by simp⟩,
   (c9_theorem paramsWatchDebug true []).2.1 rfl,
   (c9_theorem paramsWatchDebug false []).2.2 rfl rfl rfl⟩

/-- C10: when the cold build collected at least one unit-level error and no
fatal error occurred, `compile` sets exit code 2 and returns at once: watch
mode is not entered and the debug snapshot is not written, for every value of
`params.watch` and `params.debug`. -/
theorem c10_theorem (params : Params) (errors : List String) (h : errors ≠ []) :
    compileOutcome params false errors = ⟨some 2, false, false⟩ := by
  have he : errors.isEmpty = false := by
    cases errors with
    | nil => exact absurd rfl h
    | cons e es => rfl
  simp [compileOutcome, he]

/-- C10 (witness): even with watch and debug both enabled, one collected
error exits with code 2, no watch, no snapshot. -/
theorem c10_witness :
    compileOutcome paramsWatchDebug false ["bad"] = ⟨some 2, false, false⟩ :=
  c10_theorem paramsWatchDebug ["bad"] (by simp)

end Postsass
